import Mathlib

/-!
Verification of the tidyforge repository's natural-language specification
against a shallow embedding of its JavaScript source.

The embedding covers:
* `packages/core/utils.js` — logging (pure, modelled as no-ops), JSON
  read/write, file copying with overwrite prompts, and the package.json
  (manifest) editors `mergeScripts` and `mergePackageConfig`;
* `packages/core/utils-husky.js` — the Husky hook installer
  (`ensureHuskyReady`, `installHook`, `addToHook`);
* `packages/pretty-please/bin/setup.js` — the lint/format orchestrator.

Modelling conventions:
* The filesystem is a finite association list from path strings to file
  data.  JSON parsing is idealised: a file either holds plain text or an
  already-parsed JSON object (`FileData.json`); `JSON.parse` failure is the
  `text` case.  I/O never fails at the OS level (the spec's claims are not
  about OS errors).
* JavaScript string operations `includes` and `trim` are modelled exactly
  on character lists (`containsSub`, `jsTrim`).
* `process.exit(n)` is modelled with `Except Nat`.
* Interactive prompts (`promptUser` in utils.js) are modelled by passing the
  user's boolean answer as an argument.
* utils-husky.js imports `promptUser` from utils.js, but utils.js does not
  export it, and it calls `log.warn`, which does not exist on the exported
  `log` object (only `log.warning` does).  Consequently every prompt path in
  utils-husky.js raises a TypeError at run time; those paths are modelled by
  an explicit `thrown` outcome.
-/

/-! ## Generic association-list operations (JS object property access) -/

/-- Property lookup on a JS object modelled as an association list
(first binding wins, matching JS objects, whose keys are unique). -/
def lookupKey {α : Type} : List (String × α) → String → Option α
  | [], _ => none
  | (k, v) :: t, key => if k = key then some v else lookupKey t key

/-- Property assignment `o[k] = v` on a JS object: replaces the binding in
place if the key exists, otherwise appends it (JS insertion order). -/
def setKey {α : Type} : List (String × α) → String → α → List (String × α)
  | [], k, v => [(k, v)]
  | (k', v') :: t, k, v => if k' = k then (k, v) :: t else (k', v') :: setKey t k v

/-- Left-biased choice on `Option` (`x` wins when present). -/
def orO {α : Type} (x y : Option α) : Option α :=
  match x with
  | some v => some v
  | none => y

theorem lookupKey_setKey_same {α : Type} (l : List (String × α)) (k : String) (v : α) :
    lookupKey (setKey l k v) k = some v := by
  induction l with
  | nil => simp [setKey, lookupKey]
  | cons hd t ih =>
    obtain ⟨k', v'⟩ := hd
    by_cases hk : k' = k
    · simp [setKey, hk, lookupKey]
    · simp [setKey, hk, lookupKey, ih]

theorem lookupKey_setKey_ne {α : Type} (l : List (String × α)) (a k : String) (v : α)
    (h : a ≠ k) : lookupKey (setKey l a v) k = lookupKey l k := by
  induction l with
  | nil => simp [setKey, lookupKey, h]
  | cons hd t ih =>
    obtain ⟨k', v'⟩ := hd
    by_cases hk : k' = a
    · subst hk; simp [setKey, lookupKey, h]
    · simp [setKey, hk, lookupKey, ih]

/-! ## JS string primitives: `trim` and `includes` -/

/-- The whitespace characters relevant to the hook commands in this
repository (JS `String.prototype.trim` removes these, among others). -/
def isWsChar (c : Char) : Bool := c = ' ' || c = '\t' || c = '\n' || c = '\r'

/-- JS `trim` on character lists: drop whitespace from both ends. -/
def jsTrim (l : List Char) : List Char :=
  ((l.dropWhile isWsChar).reverse.dropWhile isWsChar).reverse

/-- JS `s.trim()`. -/
def jsTrimS (s : String) : String := ⟨jsTrim s.data⟩

/-- Is `n` a prefix of `h` (decidable worker for `containsSub`)? -/
def isStartOf : List Char → List Char → Bool
  | [], _ => true
  | _ :: _, [] => false
  | a :: as, b :: bs => a == b && isStartOf as bs

/-- JS `hay.includes(needle)` on character lists: substring containment. -/
def containsSub : List Char → List Char → Bool
  | [], needle => needle.isEmpty
  | h :: t, needle => isStartOf needle (h :: t) || containsSub t needle

/-- JS `hay.includes(needle)` on strings. -/
def jsIncludes (hay needle : String) : Bool := containsSub hay.data needle.data

theorem isStartOf_iff (n h : List Char) : isStartOf n h = true ↔ n <+: h := by
  induction n generalizing h with
  | nil => simp [isStartOf]
  | cons a as ih =>
    cases h with
    | nil =>
      simp only [isStartOf, Bool.false_eq_true, false_iff]
      intro hpre
      rcases hpre with ⟨t, ht⟩
      exact List.cons_ne_nil _ _ ht
    | cons b bs =>
      simp [isStartOf, ih, List.cons_prefix_cons, Bool.and_eq_true, beq_iff_eq]

theorem containsSub_iff (h n : List Char) : containsSub h n = true ↔ n <:+: h := by
  induction h with
  | nil =>
    simp only [containsSub, List.isEmpty_iff]
    constructor
    · intro he; subst he; exact ⟨[], [], rfl⟩
    · intro hi
      rcases hi with ⟨s, t, hst⟩
      have := List.append_eq_nil.mp hst
      have := List.append_eq_nil.mp this.1
      exact this.2
  | cons h0 t ih =>
    simp only [containsSub, Bool.or_eq_true, isStartOf_iff, ih]
    exact (List.infix_cons_iff).symm

theorem preToInf {l₁ l₂ : List Char} (h : l₁ <+: l₂) : l₁ <:+: l₂ := by
  rcases h with ⟨t, ht⟩
  exact ⟨[], t, by simpa using ht⟩

theorem sufToInf {l₁ l₂ : List Char} (h : l₁ <:+ l₂) : l₁ <:+: l₂ := by
  rcases h with ⟨s, hs⟩
  exact ⟨s, [], by simpa using hs⟩

theorem revSufRev {l₁ l₂ : List Char} (h : l₁ <:+ l₂.reverse) : l₁.reverse <+: l₂ := by
  rcases h with ⟨s, hs⟩
  refine ⟨s.reverse, ?_⟩
  have := congrArg List.reverse hs
  simpa [List.reverse_append] using this

/-- JS `trim` returns a contiguous substring of its input. -/
theorem jsTrim_substring (l : List Char) : jsTrim l <:+: l := by
  have h1 : l.dropWhile isWsChar <:+ l := List.dropWhile_suffix _
  have h2 : (l.dropWhile isWsChar).reverse.dropWhile isWsChar <:+
      (l.dropWhile isWsChar).reverse := List.dropWhile_suffix _
  have h3 := revSufRev h2
  exact (preToInf h3).trans (sufToInf h1)

/-- A string always `includes` its own trimmed form. -/
theorem jsIncludes_self_trim (s : String) : jsIncludes s (jsTrimS s) = true := by
  exact (containsSub_iff _ _).mpr (jsTrim_substring s.data)

/-- If `c` includes `cmd` verbatim then it also includes `cmd.trim()`. -/
theorem jsIncludes_trim_of_includes (c cmd : String)
    (h : jsIncludes c cmd = true) : jsIncludes c (jsTrimS cmd) = true := by
  have hc : cmd.data <:+: c.data := (containsSub_iff _ _).mp h
  exact (containsSub_iff _ _).mpr ((jsTrim_substring cmd.data).trans hc)

theorem string_data_append (a b : String) : (a ++ b).data = a.data ++ b.data := rfl

/-- A string of the shape `a ++ s ++ b` always includes `s.trim()`. -/
theorem jsIncludes_sandwich (a s b : String) :
    jsIncludes (a ++ s ++ b) (jsTrimS s) = true := by
  refine (containsSub_iff _ _).mpr ?_
  have hdata : (a ++ s ++ b).data = a.data ++ s.data ++ b.data := rfl
  rw [hdata]
  exact (jsTrim_substring s.data).trans (List.infix_append _ _ _)

/-! ## JSON values and the package manifest -/

/-- A JSON value (enough of JSON to state the merge claims; arrays are
included for completeness). -/
inductive JVal where
  | null
  | bool (b : Bool)
  | num (n : Int)
  | str (s : String)
  | obj (fields : List (String × JVal))
  | arr (elems : List JVal)

/-- The parsed package.json, per the spec's data model: string keys mapping
to JSON values, with an optional `scripts` mapping (string → shell-command
string) and zero or more object-valued configuration blocks.  `scripts`
absent models both a missing and a `null` key (both are JS-nullish). -/
structure Manifest where
  scripts : Option (List (String × String))
  blocks : List (String × List (String × JVal))

/-- JS truthiness of a possibly-absent string property: `undefined` and the
empty string are falsy, every other string is truthy. -/
def jsFalsyStr : Option String → Bool
  | none => true
  | some v => v == ""

/-- One iteration of the `Object.entries(newScripts).forEach` loop in
`mergeScripts` (utils.js): assign when the current value is falsy or
`overwrite` is set, otherwise keep it (and log a skip warning). -/
def mergeStep (overwrite : Bool) (s : List (String × String)) (kv : String × String) :
    List (String × String) :=
  if jsFalsyStr (lookupKey s kv.1) || overwrite then setKey s kv.1 kv.2 else s

/-- `mergeScripts(pkg, newScripts, overwrite)` from utils.js:
`pkg.scripts = pkg.scripts ?? {}` then the entries loop. -/
def mergeScripts (pkg : Manifest) (newScripts : List (String × String))
    (overwrite : Bool) : Manifest :=
  { pkg with scripts := some (newScripts.foldl (mergeStep overwrite) (pkg.scripts.getD [])) }

/-- JS object spread `{...a, ...b}`: keys of `a` in order with values
overridden by `b` where present, then keys of `b` not in `a`. -/
def spreadMerge (a b : List (String × JVal)) : List (String × JVal) :=
  a.map (fun kv => (kv.1, (lookupKey b kv.1).getD kv.2)) ++
    b.filter (fun kv => (lookupKey a kv.1).isNone)

/-- `mergePackageConfig(pkg, configKey, configValue, merge)` from utils.js.
Config blocks are objects (as documented: `@param {Object} configValue`),
and every JS object is truthy, so `!pkg[configKey]` is exactly "the key is
absent". -/
def mergePackageConfig (pkg : Manifest) (configKey : String)
    (configValue : List (String × JVal)) (merge : Bool) : Manifest :=
  match lookupKey pkg.blocks configKey with
  | none => { pkg with blocks := setKey pkg.blocks configKey configValue }
  | some old =>
    if merge then
      { pkg with blocks := setKey pkg.blocks configKey (spreadMerge old configValue) }
    else
      { pkg with blocks := setKey pkg.blocks configKey configValue }

/-! ### Lemmas about `mergeScripts` -/

theorem foldl_mergeStep_notMem (l : List (String × String)) (ow : Bool)
    (s : List (String × String)) (k : String) (hk : k ∉ l.map Prod.fst) :
    lookupKey (l.foldl (mergeStep ow) s) k = lookupKey s k := by
  induction l generalizing s with
  | nil => rfl
  | cons kv t ih =>
    simp only [List.map_cons, List.mem_cons] at hk
    push_neg at hk
    have hne : kv.1 ≠ k := fun h => hk.1 h.symm
    rw [List.foldl_cons, ih _ hk.2]
    unfold mergeStep
    split
    · exact lookupKey_setKey_ne _ _ _ _ hne
    · rfl

theorem foldl_mergeStep_mem (l : List (String × String)) (ow : Bool)
    (s : List (String × String)) (kv : String × String)
    (hnd : (l.map Prod.fst).Nodup) (hm : kv ∈ l) :
    lookupKey (l.foldl (mergeStep ow) s) kv.1 =
      if jsFalsyStr (lookupKey s kv.1) || ow then some kv.2 else lookupKey s kv.1 := by
  induction l generalizing s with
  | nil => cases hm
  | cons kv0 t ih =>
    simp only [List.map_cons, List.nodup_cons] at hnd
    rcases List.mem_cons.mp hm with heq | hmem
    · subst heq
      rw [List.foldl_cons, foldl_mergeStep_notMem t ow _ kv.1 hnd.1]
      unfold mergeStep
      split
      · exact lookupKey_setKey_same _ _ _
      · rfl
    · have hk1 : kv.1 ∈ t.map Prod.fst := List.mem_map_of_mem Prod.fst hmem
      have hne : kv0.1 ≠ kv.1 := fun h => hnd.1 (h ▸ hk1)
      rw [List.foldl_cons, ih _ hnd.2 hmem]
      unfold mergeStep
      split
      · rw [lookupKey_setKey_ne _ _ _ _ hne]
      · rfl

/-! ### Lemmas about `spreadMerge` -/

theorem lookupKey_append {α : Type} (xs ys : List (String × α)) (k : String) :
    lookupKey (xs ++ ys) k = orO (lookupKey xs k) (lookupKey ys k) := by
  induction xs with
  | nil => simp [lookupKey, orO]
  | cons hd t ih =>
    obtain ⟨k', v'⟩ := hd
    by_cases hk : k' = k
    · simp [lookupKey, hk, orO]
    · simp [lookupKey, hk, ih]

theorem lookupKey_mapOverride (a b : List (String × JVal)) (k : String) :
    lookupKey (a.map (fun kv => (kv.1, (lookupKey b kv.1).getD kv.2))) k =
      (lookupKey a k).map (fun v => (lookupKey b k).getD v) := by
  induction a with
  | nil => simp [lookupKey]
  | cons hd t ih =>
    obtain ⟨k', v'⟩ := hd
    by_cases hk : k' = k
    · subst hk; simp [lookupKey]
    · simp [lookupKey, hk, ih]

theorem lookupKey_filterAbsent (a b : List (String × JVal)) (k : String) :
    lookupKey (b.filter (fun kv => (lookupKey a kv.1).isNone)) k =
      if (lookupKey a k).isNone then lookupKey b k else none := by
  induction b with
  | nil => simp [lookupKey]
  | cons hd t ih =>
    obtain ⟨k0, w⟩ := hd
    by_cases hp : (lookupKey a k0).isNone
    · by_cases hk : k0 = k
      · subst hk
        simp [List.filter_cons, hp, lookupKey]
      · simp [List.filter_cons, hp, lookupKey, hk, ih]
    · by_cases hk : k0 = k
      · subst hk
        simp only [List.filter_cons]
        rw [if_neg (by simpa using hp)]
        rw [ih]
        simp only [hp, if_false]
        simp at hp
        simp [hp]
      · simp only [List.filter_cons]
        rw [if_neg (by simpa using hp)]
        rw [ih]
        simp [lookupKey, hk]

theorem lookupKey_spreadMerge (a b : List (String × JVal)) (k : String) :
    lookupKey (spreadMerge a b) k = orO (lookupKey b k) (lookupKey a k) := by
  unfold spreadMerge
  rw [lookupKey_append, lookupKey_mapOverride, lookupKey_filterAbsent]
  cases ha : lookupKey a k <;> cases hb : lookupKey b k <;> simp [orO]

/-! ## The filesystem world and the file copier (utils.js) -/

/-- Data held by a file.  JSON parsing is idealised: a `json` file is one
whose content `JSON.parse` accepts (already in parsed form); reading a
`text` file as JSON models a parse failure. -/
inductive FileData where
  | text (s : String)
  | json (m : Manifest)

/-- The filesystem: an association list from paths to file data.
A directory (such as `.git`) is represented by an entry at its path. -/
structure World where
  files : List (String × FileData)

/-- `fs.existsSync(p)`. -/
def existsF (w : World) (p : String) : Bool := (lookupKey w.files p).isSome

/-- `fs.writeFileSync(p, d)` / `fs.copyFileSync(_, p)`: create or replace. -/
def setFileW (w : World) (p : String) (d : FileData) : World :=
  ⟨setKey w.files p d⟩

/-- `path.join(a, b)`. -/
def pjoin (a b : String) : String := a ++ "/" ++ b

/-- `copyFile(src, dest, description, allowOverwrite)` from utils.js.
`answer` is the user's reply to the overwrite prompt (consulted only when
`dest` exists and `allowOverwrite` is true).  Returns the boolean success
status and the updated filesystem.  The OS-level copy never fails in the
model, so the `catch` branch of the source is unreachable. -/
def copyFile (w : World) (src dest : String) (allowOverwrite answer : Bool) :
    Bool × World :=
  match lookupKey w.files src with
  | none => (false, w)
  | some data =>
    if existsF w dest then
      if allowOverwrite then
        if answer then (true, setFileW w dest data) else (false, w)
      else (false, w)
    else (true, setFileW w dest data)

/-- The per-batch tally accumulated by `copyConfigFiles`. -/
structure CopyResults where
  success : Nat
  skipped : Nat
  failed : Nat
deriving DecidableEq

def addRes (a b : CopyResults) : CopyResults :=
  ⟨a.success + b.success, a.skipped + b.skipped, a.failed + b.failed⟩

/-- `copyConfigFiles(srcDir, destDir, files, allowOverwrite)` from utils.js:
applies `copyFile` to each name in order and tallies; a non-copied file is
counted `skipped` when the destination exists (checked after the attempt),
otherwise `failed`.  `ans` gives the prompt answer for each file name. -/
def copyConfigFiles (w : World) (srcDir destDir : String) (files : List String)
    (allowOverwrite : Bool) (ans : String → Bool) : CopyResults × World :=
  match files with
  | [] => (⟨0, 0, 0⟩, w)
  | f :: rest =>
    let r := copyFile w (pjoin srcDir f) (pjoin destDir f) allowOverwrite (ans f)
    let res1 : CopyResults :=
      if r.1 then ⟨1, 0, 0⟩
      else if existsF r.2 (pjoin destDir f) then ⟨0, 1, 0⟩ else ⟨0, 0, 1⟩
    let restR := copyConfigFiles r.2 srcDir destDir rest allowOverwrite ans
    (addRes res1 restR.1, restR.2)

/-- How `copyConfigFiles` classifies one file (success / skipped / failed). -/
inductive BatchClass where
  | success
  | skipped
  | failed
deriving DecidableEq

/-- The classification of each file of a batch, in order, with the
filesystem threaded through exactly as `copyConfigFiles` does. -/
def batchOutcomes (w : World) (srcDir destDir : String) (files : List String)
    (allowOverwrite : Bool) (ans : String → Bool) : List BatchClass :=
  match files with
  | [] => []
  | f :: rest =>
    let r := copyFile w (pjoin srcDir f) (pjoin destDir f) allowOverwrite (ans f)
    (if r.1 then BatchClass.success
     else if existsF r.2 (pjoin destDir f) then BatchClass.skipped
     else BatchClass.failed)
      :: batchOutcomes r.2 srcDir destDir rest allowOverwrite ans

def tallyOf : List BatchClass → CopyResults
  | [] => ⟨0, 0, 0⟩
  | BatchClass.success :: t => addRes ⟨1, 0, 0⟩ (tallyOf t)
  | BatchClass.skipped :: t => addRes ⟨0, 1, 0⟩ (tallyOf t)
  | BatchClass.failed :: t => addRes ⟨0, 0, 1⟩ (tallyOf t)

/-- Modelled from the spec: the tri-state outcome the spec ascribes to
`copyOne` — {copied, skipped-exists, failed-missing-source} — evaluated on
the state in which the copy is attempted.  This definition follows the
spec's words (section 4.2), to be compared with the code's tally. -/
inductive CopyOutcome where
  | copied
  | skippedExists
  | failedMissingSource
deriving DecidableEq

/-- Modelled from the spec: `copyOne`'s tri-state outcome.  "If `src` is
absent, fail immediately"; "if `dest` exists and `allowOverwrite` is false,
skip"; "if it exists and `allowOverwrite` is true, interactively prompt; a
negative answer skips"; otherwise the file is copied. -/
def specCopyOutcome (w : World) (src dest : String) (allowOverwrite answer : Bool) :
    CopyOutcome :=
  if existsF w src = false then CopyOutcome.failedMissingSource
  else if existsF w dest && (!allowOverwrite || !answer) then CopyOutcome.skippedExists
  else CopyOutcome.copied

theorem tallyOf_total (l : List BatchClass) :
    (tallyOf l).success + (tallyOf l).skipped + (tallyOf l).failed = l.length := by
  induction l with
  | nil => rfl
  | cons c t ih =>
    cases c <;> simp [tallyOf, addRes] <;> omega

theorem copyConfigFiles_eq_tally (w : World) (srcDir destDir : String)
    (files : List String) (allowOverwrite : Bool) (ans : String → Bool) :
    (copyConfigFiles w srcDir destDir files allowOverwrite ans).1 =
      tallyOf (batchOutcomes w srcDir destDir files allowOverwrite ans) := by
  induction files generalizing w with
  | nil => rfl
  | cons f rest ih =>
    simp only [copyConfigFiles, batchOutcomes]
    set r := copyFile w (pjoin srcDir f) (pjoin destDir f) allowOverwrite (ans f) with hr
    by_cases h1 : r.1
    · simp [h1, tallyOf, ih]
    · by_cases h2 : existsF r.2 (pjoin destDir f)
      · simp [h1, h2, tallyOf, ih]
      · simp [h1, h2, tallyOf, ih]

/-! ## JSON store and manifest validation (utils.js) -/

/-- `readJSON(filePath)` from utils.js: parse failure or a missing file is
logged and terminates the process with exit code 1 (`Except.error 1`). -/
def readJSON (w : World) (p : String) : Except Nat Manifest :=
  match lookupKey w.files p with
  | some (FileData.json m) => Except.ok m
  | _ => Except.error 1

/-- `validatePackageJson(pkgPath)` from utils.js: exit code 1 when the file
does not exist, otherwise `readJSON`. -/
def validatePackageJson (w : World) (p : String) : Except Nat Manifest :=
  if existsF w p then readJSON w p else Except.error 1

/-! ## The Husky hook installer (utils-husky.js) -/

/-- `path.join(userRoot, '.husky', hookName)`. -/
def hookPath (userRoot hookName : String) : String :=
  pjoin (pjoin userRoot ".husky") hookName

def isGitInitialized (userRoot : String) (w : World) : Bool :=
  existsF w (pjoin userRoot ".git")

def isHuskyInstalled (userRoot : String) (w : World) : Bool :=
  existsF w (pjoin (pjoin userRoot "node_modules") "husky")

def isHuskyInitialized (userRoot : String) (w : World) : Bool :=
  existsF w (pjoin (pjoin (pjoin userRoot ".husky") "_") "husky.sh")

/-- Result of `ensureHuskyReady`.  The source never calls `process.exit`,
so the `exited` constructor exists only so the spec's "terminates with a
nonzero exit" is statable; `thrown` is an uncaught TypeError (the prompt
helpers call the nonexistent `log.warn` / unexported `promptUser`). -/
inductive ReadyOut where
  | ret (ready : Bool) (w : World)
  | thrown (w : World)
  | exited (code : Nat) (w : World)

/-- `ensureHuskyReady(userRoot, autoPrompt)` from utils-husky.js.  The
missing-`.git` branch logs an error and returns `false`.  The prompt
branches (`promptHuskyInstall` / `promptHuskyInit`) invoke `promptUser`,
which utils.js does not export, so they raise a TypeError before reading
any input; `installHusky` / `initializeHusky` are therefore unreachable
through this function and are not modelled further. -/
def ensureHuskyReady (userRoot : String) (w : World) (autoPrompt : Bool) : ReadyOut :=
  if !(isGitInitialized userRoot w) then ReadyOut.ret false w
  else if !(isHuskyInstalled userRoot w) then
    (if autoPrompt then ReadyOut.thrown w else ReadyOut.ret false w)
  else if !(isHuskyInitialized userRoot w) then
    (if autoPrompt then ReadyOut.thrown w else ReadyOut.ret false w)
  else ReadyOut.ret true w

/-- Result of `installHook`: either a normal return carrying the boolean
status and the hook file's content (`none` = file absent), or an uncaught
TypeError (`thrown`), again with the file's content at that point. -/
inductive HookOut where
  | ret (ok : Bool) (file : Option String)
  | thrown (file : Option String)
deriving DecidableEq

/-- The fixed preamble `installHook` writes before the command. -/
def hookPreamble : String :=
  "#!/usr/bin/env sh\n. \"$(dirname -- \"$0\")/_/husky.sh\"\n\n"

/-- The full content `installHook` writes: preamble, command, newline. -/
def hookContent (cmd : String) : String := hookPreamble ++ cmd ++ "\n"

/-- `installHook(userRoot, hookName, hookCommand, overwrite)` from
utils-husky.js, projected onto the one file it touches
(`.husky/<hookName>`, content passed as `file`).  When the hook exists
without the command and `overwrite` is false, the source calls
`promptHookOverwrite`, whose first statement is `log.warn(...)` — but the
exported log object has no `warn` method (and `promptUser` is not exported
either), so a TypeError escapes before any prompt: `thrown`.  The
`chmodSync` call and the unreachable write-failure catch are not modelled. -/
def installHook (file : Option String) (hookCommand : String) (overwrite : Bool) :
    HookOut :=
  match file with
  | some existing =>
    if jsIncludes existing (jsTrimS hookCommand) then HookOut.ret true (some existing)
    else if !overwrite then HookOut.thrown (some existing)
    else HookOut.ret true (some (hookContent hookCommand))
  | none => HookOut.ret true (some (hookContent hookCommand))

/-- Plain result of `addToHook` (it catches its own errors and only uses
log methods that exist, so it always returns). -/
structure HookResult where
  ok : Bool
  file : Option String
deriving DecidableEq

/-- `addToHook(userRoot, hookName, hookCommand)` from utils-husky.js,
projected onto the hook file: fails if the hook does not exist; no-op
success if the content already includes the trimmed command; otherwise
appends `"\n" + hookCommand + "\n"`. -/
def addToHook (file : Option String) (hookCommand : String) : HookResult :=
  match file with
  | none => ⟨false, none⟩
  | some existing =>
    if jsIncludes existing (jsTrimS hookCommand) then ⟨true, some existing⟩
    else ⟨true, some (existing ++ "\n" ++ hookCommand ++ "\n")⟩

/-! ## The pretty-please orchestrator (bin/setup.js) -/

/-- `setupScriptsStep(pkg)` from setup.js: reads `configs/scripts.json`
(missing → log and return; unparsable → `readJSON` exits the process),
requires a `scripts` object in it, merges the scripts (overwrite=false) and
the optional `lint-staged` block (merge=true). -/
def setupScriptsStep (w : World) (configsDir : String) (pkg : Manifest) :
    Except Nat Manifest :=
  match lookupKey w.files (pjoin configsDir "scripts.json") with
  | none => Except.ok pkg
  | some (FileData.json cfg) =>
    match cfg.scripts with
    | none => Except.ok pkg
    | some scr =>
      let pkg1 := mergeScripts pkg scr false
      match lookupKey cfg.blocks "lint-staged" with
      | some ls => Except.ok (mergePackageConfig pkg1 "lint-staged" ls true)
      | none => Except.ok pkg1
  | some (FileData.text _) => Except.error 1

/-- `readdirSync(dir)` restricted to plain files directly under `dir`
(entries in subdirectories are excluded, matching the `isDirectory`
`continue`). -/
def chopDir (dir p : String) : Option String :=
  let dl := dir.data ++ ['/']
  if p.data.take dl.length == dl && !((p.data.drop dl.length).contains '/') then
    some ⟨p.data.drop dl.length⟩
  else none

def entriesUnder (w : World) (dir : String) : List String :=
  w.files.filterMap (fun e => chopDir dir e.1)

/-- `setupHuskyStep(pkg)` from setup.js: copies every bundled hook file
into `.husky/` (allowOverwrite=true, prompting via `ans`), then merges
`{prepare: "husky"}`.  `mkdirSync` and `chmodSync` are not modelled. -/
def setupHuskyStep (w : World) (huskyDir userRoot : String) (pkg : Manifest)
    (ans : String → Bool) : Manifest × World :=
  let names := entriesUnder w huskyDir
  let w1 := names.foldl
    (fun wa name =>
      (copyFile wa (pjoin huskyDir name) (hookPath userRoot name) true (ans name)).2)
    w
  (mergeScripts pkg [("prepare", "husky")] false, w1)

/-- `main()` from pretty-please's setup.js: validate the manifest (fatal),
copy the two bundled configs with overwrite prompting, merge scripts and
the lint-staged block, copy hook files and add the prepare script, then
write the manifest back.  Returns the process outcome (exit code via
`Except`) and the final filesystem. -/
def mainPretty (userRoot packageRoot : String) (w : World) (ans : String → Bool) :
    Except Nat Unit × World :=
  let pkgPath := pjoin userRoot "package.json"
  match validatePackageJson w pkgPath with
  | Except.error c => (Except.error c, w)
  | Except.ok pkg =>
    let configsDir := pjoin packageRoot "configs"
    let huskyDir := pjoin packageRoot "hooks"
    let r1 := copyConfigFiles w configsDir userRoot ["eslint.config.mjs", ".prettierrc"] true ans
    match setupScriptsStep r1.2 configsDir pkg with
    | Except.error c => (Except.error c, r1.2)
    | Except.ok pkg1 =>
      let r2 := setupHuskyStep r1.2 huskyDir userRoot pkg1 ans
      (Except.ok (), setFileW r2.2 pkgPath (FileData.json r2.1))

/-! ## Claim C1 — `mergeScripts` -/

/-- C1, counterexample.  The claim says an entry is set only if the key is
absent, the existing value otherwise untouched.  But utils.js tests
`!pkg.scripts[key]`, which is JS truthiness: a present key whose value is
the empty string is overwritten even with `overwrite = false`. -/
theorem mergeScripts_claim_counterexample :
    lookupKey (Manifest.scripts ⟨some [("a", "")], []⟩ |>.getD []) "a" = some "" ∧
    lookupKey ((mergeScripts ⟨some [("a", "")], []⟩ [("a", "x")] false).scripts.getD []) "a" =
      some "x" := by
  exact ⟨rfl, rfl⟩

/-- C1 (amended): for every manifest and new-script set (with distinct keys,
as `Object.entries` yields), `mergeScripts` with `overwrite = false` sets an
entry only if the key is absent **or its existing value is the empty string
(JS-falsy)**; otherwise the existing value is untouched.  With
`overwrite = true` the new value replaces it.  Entries of `manifest.scripts`
not named in `newScripts` are never removed or changed, and the `scripts`
mapping always exists afterwards. -/
theorem mergeScripts_amended (pkg : Manifest) (new : List (String × String)) (ow : Bool)
    (hnd : (new.map Prod.fst).Nodup) :
    ((mergeScripts pkg new ow).scripts.isSome = true) ∧
    (∀ k, k ∉ new.map Prod.fst →
      lookupKey ((mergeScripts pkg new ow).scripts.getD []) k =
        lookupKey (pkg.scripts.getD []) k) ∧
    (∀ kv ∈ new,
      lookupKey ((mergeScripts pkg new ow).scripts.getD []) kv.1 =
        if jsFalsyStr (lookupKey (pkg.scripts.getD []) kv.1) || ow then some kv.2
        else lookupKey (pkg.scripts.getD []) kv.1) := by
  refine ⟨rfl, ?_, ?_⟩
  · intro k hk
    simp only [mergeScripts, Option.getD_some]
    exact foldl_mergeStep_notMem new ow _ k hk
  · intro kv hm
    simp only [mergeScripts, Option.getD_some]
    exact foldl_mergeStep_mem new ow _ kv hnd hm

/-- C1, witness: an existing `pkg.scripts.a === "y"` stays `"y"` with
`overwrite = false`, becomes `"x"` with `overwrite = true`, and the
unrelated script `b` is untouched. -/
theorem mergeScripts_amended_witness :
    lookupKey ((mergeScripts ⟨some [("a", "y"), ("b", "z")], []⟩ [("a", "x")] false).scripts.getD [])
      "a" = some "y" ∧
    lookupKey ((mergeScripts ⟨some [("a", "y"), ("b", "z")], []⟩ [("a", "x")] true).scripts.getD [])
      "a" = some "x" ∧
    lookupKey ((mergeScripts ⟨some [("a", "y"), ("b", "z")], []⟩ [("a", "x")] false).scripts.getD [])
      "b" = some "z" := by
  refine ⟨?_, ?_, ?_⟩
  · have h := (mergeScripts_amended ⟨some [("a", "y"), ("b", "z")], []⟩ [("a", "x")] false
      (by decide)).2.2 ("a", "x") (by decide)
    rw [h]; decide
  · have h := (mergeScripts_amended ⟨some [("a", "y"), ("b", "z")], []⟩ [("a", "x")] true
      (by decide)).2.2 ("a", "x") (by decide)
    rw [h]; decide
  · have h := (mergeScripts_amended ⟨some [("a", "y"), ("b", "z")], []⟩ [("a", "x")] false
      (by decide)).2.1 "b" (by decide)
    rw [h]; decide

/-! ## Claim C2 — `mergePackageConfig` -/

/-- C2: `mergeConfigBlock` replaces `manifest[key]` wholesale when the key
is absent or `merge = false`; when present and `merge = true` it performs a
shallow one-level merge — looking up any key `k` in the merged block gives
`value`'s entry when it has one (nested objects replaced wholesale),
otherwise the existing block's entry. -/
theorem mergeConfigBlock_spec (pkg : Manifest) (key : String)
    (value : List (String × JVal)) (merge : Bool) :
    ((lookupKey pkg.blocks key = none ∨ merge = false) →
      lookupKey (mergePackageConfig pkg key value merge).blocks key = some value) ∧
    (∀ old, lookupKey pkg.blocks key = some old → merge = true →
      lookupKey (mergePackageConfig pkg key value merge).blocks key =
        some (spreadMerge old value) ∧
      ∀ k, lookupKey (spreadMerge old value) k =
        orO (lookupKey value k) (lookupKey old k)) := by
  constructor
  · intro hcase
    unfold mergePackageConfig
    rcases hcase with habs | hnm
    · rw [habs]
      exact lookupKey_setKey_same _ _ _
    · cases hold : lookupKey pkg.blocks key with
      | none => exact lookupKey_setKey_same _ _ _
      | some old =>
        subst hnm
        simp only [Bool.false_eq_true, if_false]
        exact lookupKey_setKey_same _ _ _
  · intro old hold hm
    subst hm
    unfold mergePackageConfig
    rw [hold]
    simp only [if_true]
    exact ⟨lookupKey_setKey_same _ _ _, fun k => lookupKey_spreadMerge old value k⟩

/-- C2, witness: on `pkg.k = {y: 2}`, merging `{x: 1}` with `merge = true`
yields a block with `x = 1` and `y = 2`; with `merge = false` the block is
exactly `{x: 1}` (`y` dropped). -/
theorem mergeConfigBlock_spec_witness :
    lookupKey (mergePackageConfig ⟨none, [("k", [("y", JVal.num 2)])]⟩ "k"
      [("x", JVal.num 1)] false).blocks "k" = some [("x", JVal.num 1)] ∧
    lookupKey (spreadMerge [("y", JVal.num 2)] [("x", JVal.num 1)]) "x" =
      orO (lookupKey [("x", JVal.num 1)] "x") (lookupKey [("y", JVal.num 2)] "x") ∧
    lookupKey (spreadMerge [("y", JVal.num 2)] [("x", JVal.num 1)]) "y" =
      orO (lookupKey [("x", JVal.num 1)] "y") (lookupKey [("y", JVal.num 2)] "y") ∧
    lookupKey (mergePackageConfig ⟨none, [("k", [("y", JVal.num 2)])]⟩ "k"
      [("x", JVal.num 1)] true).blocks "k" =
      some (spreadMerge [("y", JVal.num 2)] [("x", JVal.num 1)]) := by
  refine ⟨?_, ?_, ?_, ?_⟩
  · exact (mergeConfigBlock_spec ⟨none, [("k", [("y", JVal.num 2)])]⟩ "k"
      [("x", JVal.num 1)] false).1 (Or.inr rfl)
  · exact ((mergeConfigBlock_spec ⟨none, [("k", [("y", JVal.num 2)])]⟩ "k"
      [("x", JVal.num 1)] true).2 [("y", JVal.num 2)] rfl rfl).2 "x"
  · exact ((mergeConfigBlock_spec ⟨none, [("k", [("y", JVal.num 2)])]⟩ "k"
      [("x", JVal.num 1)] true).2 [("y", JVal.num 2)] rfl rfl).2 "y"
  · exact ((mergeConfigBlock_spec ⟨none, [("k", [("y", JVal.num 2)])]⟩ "k"
      [("x", JVal.num 1)] true).2 [("y", JVal.num 2)] rfl rfl).1

/-! ## Claim C3 — missing package.json aborts the orchestrator untouched -/

/-- C3: if `package.json` is absent from the project root, the pretty-please
orchestrator exits with code 1 and the filesystem is returned unchanged —
no config file copied, no script merged, no hook file written; the fatal
manifest validation runs before any other step. -/
theorem mainPretty_missing_manifest (userRoot packageRoot : String) (w : World)
    (ans : String → Bool)
    (h : lookupKey w.files (pjoin userRoot "package.json") = none) :
    mainPretty userRoot packageRoot w ans = (Except.error 1, w) := by
  simp [mainPretty, validatePackageJson, existsF, h]

/-- C3, witness: a project with a `.git` directory and a bundled package on
disk but no `package.json` exits with code 1 and an unchanged filesystem. -/
theorem mainPretty_missing_manifest_witness :
    mainPretty "proj" "pp" ⟨[("proj/.git", FileData.text ""),
      ("pp/configs/eslint.config.mjs", FileData.text "cfg")]⟩ (fun _ => true) =
      (Except.error 1, ⟨[("proj/.git", FileData.text ""),
        ("pp/configs/eslint.config.mjs", FileData.text "cfg")]⟩) :=
  mainPretty_missing_manifest "proj" "pp" _ (fun _ => true) rfl

/-! ## Claim C4 — `ensureHuskyReady` with no `.git` -/

/-- C4, counterexample.  The claim (and spec) say a missing repository is
fatal: logged, process terminates with a nonzero exit.  The code logs and
returns `false` — `ensureHuskyReady` contains no `process.exit` call at
all, so it returns normally (`ret false`) rather than exiting. -/
theorem ensureHuskyReady_claim_counterexample :
    ensureHuskyReady "proj" ⟨[]⟩ true = ReadyOut.ret false ⟨[]⟩ ∧
    ensureHuskyReady "proj" ⟨[]⟩ true ≠ ReadyOut.exited 1 ⟨[]⟩ := by
  refine ⟨rfl, ?_⟩
  intro hcontra
  rw [show ensureHuskyReady "proj" ⟨[]⟩ true = ReadyOut.ret false ⟨[]⟩ from rfl] at hcontra
  exact ReadyOut.noConfusion hcontra

/-- C4 (amended): when `ensureHuskyReady` runs in a project root with no
`.git` directory, the missing repository is a failure **result**: the error
is logged and the function returns `false` without prompting, invoking any
command, or touching the filesystem — the process is not terminated. -/
theorem ensureHuskyReady_no_git (userRoot : String) (w : World) (autoPrompt : Bool)
    (h : isGitInitialized userRoot w = false) :
    ensureHuskyReady userRoot w autoPrompt = ReadyOut.ret false w := by
  unfold ensureHuskyReady
  rw [h]
  rfl

/-- C4, witness: an empty project (no `.git`) yields `ret false` with the
world unchanged. -/
theorem ensureHuskyReady_no_git_witness :
    ensureHuskyReady "proj" ⟨[("proj/package.json", FileData.json ⟨none, []⟩)]⟩ false =
      ReadyOut.ret false ⟨[("proj/package.json", FileData.json ⟨none, []⟩)]⟩ :=
  ensureHuskyReady_no_git "proj" _ false rfl

/-! ## Claim C5 — `installHook` idempotence -/

/-- C5, counterexample.  The claim quantifies over every hook state; when
the hook file exists without the command and `overwrite` is false, the call
does not report success at all — `promptHookOverwrite` crashes on the
nonexistent `log.warn`, so both the first and the second call throw instead
of succeeding. -/
theorem installHook_twice_counterexample :
    installHook (some "#!/usr/bin/env sh\necho hi\n") "npx lint-staged" false =
      HookOut.thrown (some "#!/usr/bin/env sh\necho hi\n") ∧
    installHook (some "#!/usr/bin/env sh\necho hi\n") "npx lint-staged" false ≠
      HookOut.ret true (some "#!/usr/bin/env sh\necho hi\n") := by
  exact ⟨by decide, by decide⟩

/-- C5 (amended): `installHook` is idempotent on every returning run: if a
call with some hook state, command and overwrite flag returns at all, it
returned success, and calling `installHook` again on the resulting hook
file with the same arguments returns success and leaves the content
byte-identical.  (The only non-returning case — hook present without the
command and `overwrite` false — throws in `promptHookOverwrite` instead.) -/
theorem installHook_none_eq (cmd : String) (ow : Bool) :
    installHook none cmd ow = HookOut.ret true (some (hookContent cmd)) := rfl

theorem installHook_some_eq (existing cmd : String) (ow : Bool) :
    installHook (some existing) cmd ow =
      if jsIncludes existing (jsTrimS cmd) then HookOut.ret true (some existing)
      else if !ow then HookOut.thrown (some existing)
      else HookOut.ret true (some (hookContent cmd)) := rfl

theorem installHook_idempotent (file : Option String) (cmd : String) (ow : Bool)
    (b : Bool) (f : Option String)
    (h : installHook file cmd ow = HookOut.ret b f) :
    b = true ∧ installHook f cmd ow = HookOut.ret true f := by
  have hcontent : jsIncludes (hookContent cmd) (jsTrimS cmd) = true := by
    unfold hookContent
    exact jsIncludes_sandwich hookPreamble cmd "\n"
  cases file with
  | none =>
    rw [installHook_none_eq] at h
    injection h with hb hf
    subst hb
    subst hf
    refine ⟨rfl, ?_⟩
    rw [installHook_some_eq, if_pos hcontent]
  | some existing =>
    rw [installHook_some_eq] at h
    by_cases hinc : jsIncludes existing (jsTrimS cmd) = true
    · rw [if_pos hinc] at h
      injection h with hb hf
      subst hb
      subst hf
      exact ⟨rfl, by rw [installHook_some_eq, if_pos hinc]⟩
    · rw [if_neg hinc] at h
      cases ow with
      | false => simp at h
      | true =>
        simp only [Bool.not_true, Bool.false_eq_true, if_false] at h
        injection h with hb hf
        subst hb
        subst hf
        exact ⟨rfl, by rw [installHook_some_eq, if_pos hcontent]⟩

/-- C5, witness: installing into an absent hook returns success, and the
second call with the same arguments returns success with the content
byte-identical. -/
theorem installHook_idempotent_witness :
    installHook (some (hookContent "npx lint-staged")) "npx lint-staged" false =
      HookOut.ret true (some (hookContent "npx lint-staged")) :=
  (installHook_idempotent none "npx lint-staged" false true
    (some (hookContent "npx lint-staged")) rfl).2

/-! ## Claim C6 — `copyConfigFiles` tally -/

theorem batchOutcomes_length (w : World) (srcDir destDir : String)
    (files : List String) (allowOverwrite : Bool) (ans : String → Bool) :
    (batchOutcomes w srcDir destDir files allowOverwrite ans).length = files.length := by
  induction files generalizing w with
  | nil => rfl
  | cons f rest ih => simp [batchOutcomes, ih]

/-- C6, counterexample.  The claim says a file whose `copyOne` outcome is
failed-missing-source is counted under `failed`; but when the source is
missing while the destination already exists, `copyConfigFiles` sees
`copied = false` and `existsSync(dest) = true` and counts the file as
`skipped` (tally `⟨0, 1, 0⟩`, not `⟨0, 0, 1⟩`). -/
theorem copyBatch_claim_counterexample :
    (copyConfigFiles ⟨[("root/a", FileData.text "x")]⟩ "cfg" "root" ["a"] false
      (fun _ => true)).1 = ⟨0, 1, 0⟩ ∧
    specCopyOutcome ⟨[("root/a", FileData.text "x")]⟩ (pjoin "cfg" "a") (pjoin "root" "a")
      false true = CopyOutcome.failedMissingSource := by
  exact ⟨rfl, rfl⟩

/-- C6 (amended): `copyBatch` applies `copyOne` to each listed file name in
order and counts every file exactly once — success when copied, otherwise
skipped when the destination exists after the attempt, otherwise failed —
so success + skipped + failed equals the number of file names.  (This
agrees with the spec's tri-state outcome except that a file whose source is
missing while its destination already exists is counted skipped, not
failed.) -/
theorem copyBatch_tally (w : World) (srcDir destDir : String) (files : List String)
    (allowOverwrite : Bool) (ans : String → Bool) :
    (copyConfigFiles w srcDir destDir files allowOverwrite ans).1 =
      tallyOf (batchOutcomes w srcDir destDir files allowOverwrite ans) ∧
    (copyConfigFiles w srcDir destDir files allowOverwrite ans).1.success +
      (copyConfigFiles w srcDir destDir files allowOverwrite ans).1.skipped +
      (copyConfigFiles w srcDir destDir files allowOverwrite ans).1.failed =
      files.length := by
  have he := copyConfigFiles_eq_tally w srcDir destDir files allowOverwrite ans
  refine ⟨he, ?_⟩
  rw [he, tallyOf_total, batchOutcomes_length]

/-! ## Claim C7 — refusal path of `installHook` -/

/-- C7: code bug.  The spec says that when the hook file exists without the
command and `overwrite` is false, the user is prompted and a refusal is a
non-fatal skip (return `false`, file unchanged, no exception).  In the code
this path calls `promptHookOverwrite`, whose first statement is
`log.warn(...)` — the exported log object has only `success`, `warning`,
`error`, `info` — and which then calls `promptUser`, which utils.js never
exports.  A TypeError therefore escapes `installHook` (the call is outside
its try/catch) before any prompt is shown. -/
theorem installHook_prompt_crash :
    installHook (some "#!/usr/bin/env sh\necho ok\n") "npx commitlint --edit" false =
      HookOut.thrown (some "#!/usr/bin/env sh\necho ok\n") := by
  decide

/-! ## Claim C8 — `addToHook` -/

theorem addToHook_some_eq (existing cmd : String) :
    addToHook (some existing) cmd =
      if jsIncludes existing (jsTrimS cmd) then ⟨true, some existing⟩
      else ⟨true, some (existing ++ "\n" ++ cmd ++ "\n")⟩ := rfl

/-- C8: `append(hookName, command)` on a hook file already containing the
exact command text leaves the file byte-identical and reports success; on a
missing hook file it fails without creating the file (directing the caller
to `installHook`); otherwise it appends a newline plus the command (plus a
trailing newline) to the end of the file. -/
theorem addToHook_spec (c cmd : String) :
    (jsIncludes c cmd = true → addToHook (some c) cmd = ⟨true, some c⟩) ∧
    (addToHook none cmd = ⟨false, none⟩) ∧
    (jsIncludes c (jsTrimS cmd) = false →
      addToHook (some c) cmd = ⟨true, some (c ++ "\n" ++ cmd ++ "\n")⟩) := by
  refine ⟨?_, rfl, ?_⟩
  · intro h
    rw [addToHook_some_eq, if_pos (jsIncludes_trim_of_includes c cmd h)]
  · intro h
    rw [addToHook_some_eq, if_neg (by simp [h])]

/-- C8, witness: a hook containing the exact command is left byte-identical
with success; a missing hook fails; a hook without the command gets
`"\n" + command + "\n"` appended. -/
theorem addToHook_spec_witness :
    addToHook (some "#!/usr/bin/env sh\nnpx z\n") "npx z" =
      ⟨true, some "#!/usr/bin/env sh\nnpx z\n"⟩ ∧
    addToHook none "npx z" = ⟨false, none⟩ ∧
    addToHook (some "#!/usr/bin/env sh\n") "npx z" =
      ⟨true, some ("#!/usr/bin/env sh\n" ++ "\n" ++ "npx z" ++ "\n")⟩ := by
  refine ⟨?_, ?_, ?_⟩
  · exact (addToHook_spec "#!/usr/bin/env sh\nnpx z\n" "npx z").1 (by decide)
  · exact (addToHook_spec "" "npx z").2.1
  · exact (addToHook_spec "#!/usr/bin/env sh\n" "npx z").2.2 (by decide)

/-! ## Claim C9 — what validation guarantees -/

/-- C9, counterexample.  `validatePackageJson` only checks that the file
exists and parses; it returns the parsed object unchanged.  A package.json
parsing to an object with no `scripts` key validates successfully, and the
returned manifest has no scripts mapping — contradicting "always contains
at least a scripts mapping". -/
theorem validatePackageJson_claim_counterexample :
    validatePackageJson ⟨[("proj/package.json", FileData.json ⟨none, []⟩)]⟩
      "proj/package.json" = Except.ok ⟨none, []⟩ ∧
    Manifest.scripts ⟨none, []⟩ = none := by
  exact ⟨rfl, rfl⟩

/-- C9 (amended): for every path to an existing file that parses as JSON,
validation returns exactly the parsed manifest — it contains a `scripts`
mapping only if the file did.  A `scripts` mapping is guaranteed only after
a subsequent `mergeScripts` call (whose `pkg.scripts ?? {}` initialises
it), for any arguments. -/
theorem validatePackageJson_amended (w : World) (p : String) (m : Manifest)
    (new : List (String × String)) (ow : Bool)
    (h : lookupKey w.files p = some (FileData.json m)) :
    validatePackageJson w p = Except.ok m ∧
    (mergeScripts m new ow).scripts.isSome = true := by
  refine ⟨?_, rfl⟩
  simp [validatePackageJson, existsF, readJSON, h]

/-- C9, witness: a manifest with a scripts mapping validates to itself, and
`mergeScripts` leaves the scripts mapping present. -/
theorem validatePackageJson_amended_witness :
    validatePackageJson ⟨[("proj/package.json",
      FileData.json ⟨some [("start", "node .")], []⟩)]⟩ "proj/package.json" =
      Except.ok ⟨some [("start", "node .")], []⟩ ∧
    (mergeScripts ⟨some [("start", "node .")], []⟩ [("lint", "eslint .")] false).scripts.isSome =
      true :=
  validatePackageJson_amended _ "proj/package.json" _ [("lint", "eslint .")] false rfl

/-! ## Claim C10 — substring containment decides "already configured" -/

/-- C10: `installHook` and `addToHook` decide that a hook is already
configured by substring containment: whenever the existing content includes
the trimmed command text anywhere — even inside a longer line — both return
success without modifying the file (for any overwrite flag). -/
theorem hook_substring_suppresses (c cmd : String) (ow : Bool)
    (h : jsIncludes c (jsTrimS cmd) = true) :
    installHook (some c) cmd ow = HookOut.ret true (some c) ∧
    addToHook (some c) cmd = ⟨true, some c⟩ := by
  constructor
  · rw [installHook_some_eq, if_pos h]
  · rw [addToHook_some_eq, if_pos h]

/-- C10, witness: the trimmed command `npx lint-staged` occurs inside the
longer token `npx lint-stagedX` of a longer line, yet both calls report
success and leave the file unchanged. -/
theorem hook_substring_suppresses_witness :
    installHook (some "echo start && npx lint-stagedX && echo end\n")
      " npx lint-staged " true =
      HookOut.ret true (some "echo start && npx lint-stagedX && echo end\n") ∧
    addToHook (some "echo start && npx lint-stagedX && echo end\n")
      " npx lint-staged " =
      ⟨true, some "echo start && npx lint-stagedX && echo end\n"⟩ := by
  refine ⟨?_, ?_⟩
  · exact (hook_substring_suppresses "echo start && npx lint-stagedX && echo end\n"
      " npx lint-staged " true (by decide)).1
  · exact (hook_substring_suppresses "echo start && npx lint-stagedX && echo end\n"
      " npx lint-staged " true (by decide)).2
